import Mathlib

/-!
Verification of the cluster coordination and replication engine of
`sbd-nextjs-cluster-dashboard` against its natural-language specification.

The repository ships the dashboard UI (Next.js pages) plus the protocol
documentation of the cluster engine.  The dashboard helpers
(`formatUptime`, the alert stat cards) are embedded directly from the
TypeScript in `src/app/nodes/page.tsx` and the alerts page.  The cluster
engine itself (Node Registry, Replication Applier, Role Coordinator,
Migration Engine, Cluster API error mapping) is not present as code in
the repository — only its documentation is — so those components are
modelled from the specification, as flagged on each definition.
-/

namespace SBD

/-! ## Dashboard helpers (embedded from the TypeScript source) -/

/-- Embedded from `src/app/nodes/page.tsx` `formatUptime`:
`days = floor(s/86400)`, `hours = floor((s%86400)/3600)`,
`minutes = floor((s%3600)/60)`; prints `"Dd Hh"` when `days > 0`,
else `"Hh Mm"` when `hours > 0`, else `"Mm"`.  Seconds are modelled
as `Nat` (the TypeScript code floors every component). -/
def formatUptime (seconds : Nat) : String :=
  let days := seconds / 86400
  let hours := (seconds % 86400) / 3600
  let minutes := (seconds % 3600) / 60
  if days > 0 then toString days ++ "d " ++ toString hours ++ "h"
  else if hours > 0 then toString hours ++ "h " ++ toString minutes ++ "m"
  else toString minutes ++ "m"

/-- Alert severities supported by `severityConfig` on the alerts page. -/
inductive Severity where
  | critical
  | error
  | warning
  | info
deriving DecidableEq, Repr

/-- One alert as far as the stat cards are concerned. -/
structure Alert where
  alert_id : String
  severity : Severity
deriving DecidableEq, Repr

/-- Embedded from `AlertsPage`: the "Total Alerts" card shows `alerts.length`. -/
def totalCount (alerts : List Alert) : Nat := alerts.length

/-- Embedded from `AlertsPage`: the "Critical" card shows
`alerts.filter(a => a.severity === 'critical').length`. -/
def criticalCount (alerts : List Alert) : Nat :=
  (alerts.filter (fun a => a.severity = .critical)).length

/-- Embedded from `AlertsPage`: the "Warning" card shows
`alerts.filter(a => a.severity === 'warning').length`. -/
def warningCount (alerts : List Alert) : Nat :=
  (alerts.filter (fun a => a.severity = .warning)).length

/-- Embedded from `AlertsPage`: the "Info" card shows
`alerts.filter(a => a.severity === 'info').length`. -/
def infoCount (alerts : List Alert) : Nat :=
  (alerts.filter (fun a => a.severity = .info)).length

/-- Alerts with severity `error` (not shown on any of the three cards). -/
def errorCount (alerts : List Alert) : Nat :=
  (alerts.filter (fun a => a.severity = .error)).length

/-! ## Replication Event Log & Applier (modelled from the spec) -/

/-- Mutation kinds carried by a replication event. -/
inductive MutationOp where
  | insert
  | update
  | delete
deriving DecidableEq, Repr

/-- Modelled from the spec: one `ReplicationEvent` as documented for
`POST /cluster/replication/apply` — `event_id` (unique), `sequence_number`
(strictly increasing per source), operation, collection, document id,
payload, timestamp and source node (timestamps are `Nat` instants; the
engine itself is not in the repository sources). -/
structure ReplicationEvent where
  event_id : String
  sequence_number : Nat
  operation : MutationOp
  collection : String
  document_id : String
  data : String
  timestamp : Nat
  source_node : String
deriving DecidableEq, Repr

/-- Replica document store: `(collection, document_id) ↦ data`. -/
abbrev DocStore := List ((String × String) × String)

/-- Write (insert/update) a document, replacing any existing binding. -/
def setDoc (k : String × String) (v : String) (docs : DocStore) : DocStore :=
  (k, v) :: docs.filter (fun kv => kv.1 ≠ k)

/-- Delete a document if present. -/
def delDoc (k : String × String) (docs : DocStore) : DocStore :=
  docs.filter (fun kv => kv.1 ≠ k)

/-- Modelled from the spec: an Applier target's state — the documents plus
the set of `event_id`s already applied (the idempotency key per target). -/
structure ReplState where
  applied : List String
  docs : DocStore
deriving DecidableEq, Repr

/-- Effect of one event's mutation on the document store. -/
def applyMutation (e : ReplicationEvent) (docs : DocStore) : DocStore :=
  match e.operation with
  | .insert => setDoc (e.collection, e.document_id) e.data docs
  | .update => setDoc (e.collection, e.document_id) e.data docs
  | .delete => delDoc (e.collection, e.document_id) docs

/-- Modelled from the spec: the Applier's apply-or-skip step, keyed by
`event_id` — an event whose id was already applied is skipped. -/
def applyEvent (s : ReplState) (e : ReplicationEvent) : ReplState :=
  if e.event_id ∈ s.applied then s
  else ⟨e.event_id :: s.applied, applyMutation e s.docs⟩

/-- Deliver a batch: apply its events in order. -/
def applyBatch (s : ReplState) (b : List ReplicationEvent) : ReplState :=
  b.foldl applyEvent s

/-- Deliver the same batch `n` times in a row. -/
def applyBatchTimes : Nat → List ReplicationEvent → ReplState → ReplState
  | 0, _, s => s
  | n + 1, b, s => applyBatchTimes n b (applyBatch s b)

/-- Order on events by `sequence_number` (the replay order authority). -/
def seqLe (a b : ReplicationEvent) : Prop :=
  a.sequence_number ≤ b.sequence_number

instance : DecidableRel seqLe := fun a b => Nat.decLe _ _

instance : IsTotal ReplicationEvent seqLe := ⟨fun a b => Nat.le_total _ _⟩

instance : IsTrans ReplicationEvent seqLe := ⟨fun _ _ _ => Nat.le_trans⟩

/-- Strict `sequence_number` order. -/
def seqLt (a b : ReplicationEvent) : Prop :=
  a.sequence_number < b.sequence_number

instance : IsAntisymm ReplicationEvent seqLt :=
  ⟨fun _ _ h1 h2 => absurd (Nat.lt_trans h1 h2) (Nat.lt_irrefl _)⟩

/-- Modelled from the spec: the Applier sorts a delivered event set by
`sequence_number` before applying (sequence order, not arrival order,
determines application order). -/
def sortBySeq (l : List ReplicationEvent) : List ReplicationEvent :=
  l.insertionSort seqLe

/-- Shift every event's wall-clock timestamp (models clock skew). -/
def retime (f : Nat → Nat) (e : ReplicationEvent) : ReplicationEvent :=
  { e with timestamp := f e.timestamp }

theorem applied_mono (s : ReplState) (e : ReplicationEvent) (a : String)
    (h : a ∈ s.applied) : a ∈ (applyEvent s e).applied := by
  unfold applyEvent
  split <;> simp [h]

theorem applied_mono_batch (b : List ReplicationEvent) (s : ReplState) (a : String)
    (h : a ∈ s.applied) : a ∈ (applyBatch s b).applied := by
  induction b generalizing s with
  | nil => exact h
  | cons e rest ih => exact ih _ (applied_mono s e a h)

theorem applyEvent_id_mem (s : ReplState) (e : ReplicationEvent) :
    e.event_id ∈ (applyEvent s e).applied := by
  unfold applyEvent
  split
  · assumption
  · simp

theorem applyEvent_skip (s : ReplState) (e : ReplicationEvent)
    (h : e.event_id ∈ s.applied) : applyEvent s e = s := by
  unfold applyEvent
  simp [h]

theorem applyBatch_skip (b : List ReplicationEvent) (s : ReplState)
    (h : ∀ e ∈ b, e.event_id ∈ s.applied) : applyBatch s b = s := by
  induction b with
  | nil => rfl
  | cons e rest ih =>
    unfold applyBatch at *
    rw [List.foldl_cons, applyEvent_skip s e (h e (by simp))]
    exact ih fun x hx => h x (by simp [hx])

theorem applyBatch_ids (b : List ReplicationEvent) (s : ReplState) :
    ∀ e ∈ b, e.event_id ∈ (applyBatch s b).applied := by
  induction b generalizing s with
  | nil => intro e he; cases he
  | cons e rest ih =>
    intro x hx
    unfold applyBatch
    rw [List.foldl_cons]
    rcases List.mem_cons.mp hx with rfl | hx
    · exact applied_mono_batch rest _ _ (applyEvent_id_mem s x)
    · exact ih (applyEvent s e) x hx

theorem applyBatch_twice (b : List ReplicationEvent) (s : ReplState) :
    applyBatch (applyBatch s b) b = applyBatch s b :=
  applyBatch_skip b _ (applyBatch_ids b s)

theorem pairwise_and {α : Type _} {R S : α → α → Prop} :
    ∀ {l : List α}, l.Pairwise R → l.Pairwise S →
      l.Pairwise (fun a b => R a b ∧ S a b) := by
  intro l h1 h2
  induction h1 with
  | nil => exact .nil
  | cons hh _ ih =>
    cases h2 with
    | cons h2h h2t => exact .cons (fun b hb => ⟨hh b hb, h2h b hb⟩) (ih h2t)

theorem sorted_seqLt_of_nodup_seq (l : List ReplicationEvent)
    (hs : List.Sorted seqLe l)
    (hnd : (l.map ReplicationEvent.sequence_number).Nodup) :
    List.Sorted seqLt l := by
  have hne : l.Pairwise
      (fun a b => a.sequence_number ≠ b.sequence_number) :=
    List.pairwise_map.mp hnd
  exact (pairwise_and hs hne).imp fun h => Nat.lt_of_le_of_ne h.1 h.2

theorem sortBySeq_eq_of_perm (l₁ l₂ : List ReplicationEvent)
    (hperm : l₁.Perm l₂)
    (hnd : (l₁.map ReplicationEvent.sequence_number).Nodup) :
    sortBySeq l₁ = sortBySeq l₂ := by
  have p1 : (sortBySeq l₁).Perm l₁ := List.perm_insertionSort _ _
  have p2 : (sortBySeq l₂).Perm l₂ := List.perm_insertionSort _ _
  have hp : (sortBySeq l₁).Perm (sortBySeq l₂) :=
    p1.trans (hperm.trans p2.symm)
  have hnd2 : (l₂.map ReplicationEvent.sequence_number).Nodup :=
    ((hperm.map _).nodup_iff).mp hnd
  have hnd1' : ((sortBySeq l₁).map ReplicationEvent.sequence_number).Nodup :=
    ((p1.map _).nodup_iff).mpr hnd
  have hnd2' : ((sortBySeq l₂).map ReplicationEvent.sequence_number).Nodup :=
    ((p2.map _).nodup_iff).mpr hnd2
  have s1 : List.Sorted seqLt (sortBySeq l₁) :=
    sorted_seqLt_of_nodup_seq _ (List.sorted_insertionSort _ _) hnd1'
  have s2 : List.Sorted seqLt (sortBySeq l₂) :=
    sorted_seqLt_of_nodup_seq _ (List.sorted_insertionSort _ _) hnd2'
  exact List.eq_of_perm_of_sorted hp s1 s2

theorem applyEvent_retime (g : Nat → Nat) (s : ReplState) (e : ReplicationEvent) :
    applyEvent s (retime g e) = applyEvent s e := rfl

theorem applyBatch_map_retime (g : Nat → Nat) (l : List ReplicationEvent)
    (s : ReplState) : applyBatch s (l.map (retime g)) = applyBatch s l := by
  induction l generalizing s with
  | nil => rfl
  | cons e rest ih =>
    unfold applyBatch at *
    rw [List.map_cons, List.foldl_cons, List.foldl_cons, applyEvent_retime]
    exact ih _

theorem sortBySeq_map_retime (g : Nat → Nat) (l : List ReplicationEvent) :
    sortBySeq (l.map (retime g)) = (sortBySeq l).map (retime g) := by
  unfold sortBySeq
  exact (List.map_insertionSort seqLe seqLe (retime g) l
    (fun a _ b _ => Iff.rfl)).symm

/-! ## Node model, Registry and Role Coordinator (modelled from the spec) -/

/-- Node roles (`role ∈ {master, replica}`). -/
inductive Role where
  | master
  | replica
deriving DecidableEq, Repr

/-- Node statuses (`status ∈ {healthy, degraded, unhealthy, offline}`). -/
inductive NodeStatus where
  | healthy
  | degraded
  | unhealthy
  | offline
deriving DecidableEq, Repr

/-- Node capabilities as documented for `GET /cluster/nodes`
(`priority` is the promotion tie-break). -/
structure Capabilities where
  max_connections : Nat
  supports_writes : Bool
  supports_reads : Bool
  priority : Nat
deriving DecidableEq, Repr

/-- Per-node replication facts (`lag_seconds` modelled in integral
milliseconds, `events_pending`). -/
structure ReplInfo where
  lag_seconds : Nat
  events_pending : Nat
deriving DecidableEq, Repr

/-- Modelled from the spec: one registered cluster member as documented
for `GET /cluster/nodes` (the registry/coordinator code is not in the
repository sources). -/
structure ClusterNode where
  node_id : String
  hostname : String
  port : Nat
  role : Role
  status : NodeStatus
  capabilities : Capabilities
  replication : ReplInfo
deriving DecidableEq, Repr

/-- A node is reachable for promotion purposes when healthy or degraded. -/
def reachable (n : ClusterNode) : Bool :=
  n.status = NodeStatus.healthy ∨ n.status = NodeStatus.degraded

/-- Modelled from the spec: a replica is eligible for promotion when it
is reachable and its replication lag is below the threshold. -/
def eligibleB (threshold : Nat) (n : ClusterNode) : Bool :=
  n.role = Role.replica ∧ reachable n ∧
    n.replication.lag_seconds < threshold

/-- Modelled from the spec: the promotion preference order — higher
`capabilities.priority` first, ties broken by lower replication lag,
remaining ties by lexicographically smaller `node_id`. -/
def promoBetter (a b : ClusterNode) : Prop :=
  b.capabilities.priority < a.capabilities.priority ∨
    (a.capabilities.priority = b.capabilities.priority ∧
      (a.replication.lag_seconds < b.replication.lag_seconds ∨
        (a.replication.lag_seconds = b.replication.lag_seconds ∧
          a.node_id < b.node_id)))

instance : DecidableRel promoBetter := fun a b => by
  unfold promoBetter; infer_instance

/-- One step of the selection fold: keep the preferred candidate. -/
def pickStep (acc : Option ClusterNode) (n : ClusterNode) : Option ClusterNode :=
  match acc with
  | none => some n
  | some m => if promoBetter n m then some n else some m

/-- Modelled from the spec: the Role Coordinator's promotion selection —
a pure function of the health snapshot that picks the most preferred
eligible replica. -/
def selectPromotion (threshold : Nat) (snap : List ClusterNode) :
    Option ClusterNode :=
  (snap.filter (eligibleB threshold)).foldl pickStep none

theorem promoBetter_trans {a b c : ClusterNode}
    (h1 : promoBetter a b) (h2 : promoBetter b c) : promoBetter a c := by
  unfold promoBetter at *
  rcases h1 with h1 | ⟨h1p, h1r⟩
  · rcases h2 with h2 | ⟨h2p, _⟩
    · exact Or.inl (h2.trans h1)
    · exact Or.inl (h2p ▸ h1)
  · rcases h2 with h2 | ⟨h2p, h2r⟩
    · exact Or.inl (h1p ▸ h2)
    · refine Or.inr ⟨h1p.trans h2p, ?_⟩
      rcases h1r with h1r | ⟨h1l, h1i⟩
      · rcases h2r with h2r | ⟨h2l, _⟩
        · exact Or.inl (h1r.trans h2r)
        · exact Or.inl (h2l ▸ h1r)
      · rcases h2r with h2r | ⟨h2l, h2i⟩
        · exact Or.inl (h1l ▸ h2r)
        · exact Or.inr ⟨h1l.trans h2l, h1i.trans h2i⟩

theorem promoBetter_total {a b : ClusterNode} (h : a.node_id ≠ b.node_id) :
    promoBetter a b ∨ promoBetter b a := by
  unfold promoBetter
  rcases Nat.lt_trichotomy a.capabilities.priority b.capabilities.priority with
    hp | hp | hp
  · exact Or.inr (Or.inl hp)
  · rcases Nat.lt_trichotomy a.replication.lag_seconds
      b.replication.lag_seconds with hl | hl | hl
    · exact Or.inl (Or.inr ⟨hp, Or.inl hl⟩)
    · rcases lt_or_gt_of_ne h with hi | hi
      · exact Or.inl (Or.inr ⟨hp, Or.inr ⟨hl, hi⟩⟩)
      · exact Or.inr (Or.inr ⟨hp.symm, Or.inr ⟨hl.symm, hi⟩⟩)
    · exact Or.inr (Or.inr ⟨hp.symm, Or.inl hl⟩)
  · exact Or.inl (Or.inl hp)

theorem pickStep_foldl_spec :
    ∀ (l : List ClusterNode) (m : ClusterNode),
      ((m :: l).map ClusterNode.node_id).Nodup →
      ∃ w, List.foldl pickStep (some m) l = some w ∧ w ∈ m :: l ∧
        ∀ x ∈ m :: l, x ≠ w → promoBetter w x := by
  intro l
  induction l with
  | nil =>
    intro m _
    refine ⟨m, rfl, by simp, ?_⟩
    intro x hx hne
    simp only [List.mem_singleton] at hx
    exact absurd hx hne
  | cons n rest ih =>
    intro m hnd
    simp only [List.map_cons, List.nodup_cons, List.mem_cons, List.mem_map,
      not_or, not_exists] at hnd
    obtain ⟨⟨hmn, hmrest⟩, hnrest, hrest⟩ := hnd
    by_cases hb : promoBetter n m
    · have hnd' : ((n :: rest).map ClusterNode.node_id).Nodup := by
        simp only [List.map_cons, List.nodup_cons, List.mem_map, not_exists]
        exact ⟨hnrest, hrest⟩
      obtain ⟨w, heq, hwm, hbest⟩ := ih n hnd'
      refine ⟨w, ?_, ?_, ?_⟩
      · rw [List.foldl_cons]
        show List.foldl pickStep (if promoBetter n m then some n else some m)
          rest = some w
        rw [if_pos hb]; exact heq
      · rcases List.mem_cons.mp hwm with rfl | hwm
        · exact List.mem_cons_of_mem _ (List.mem_cons_self _ _)
        · exact List.mem_cons_of_mem _ (List.mem_cons_of_mem _ hwm)
      · intro x hx hxw
        rcases List.mem_cons.mp hx with rfl | hx
        · by_cases hwn : w = n
          · exact hwn ▸ hb
          · exact promoBetter_trans (hbest n (List.mem_cons_self _ _)
              (fun h => hwn h.symm)) hb
        · exact hbest x hx hxw
    · have hnd' : ((m :: rest).map ClusterNode.node_id).Nodup := by
        simp only [List.map_cons, List.nodup_cons, List.mem_map, not_exists]
        exact ⟨hmrest, hrest⟩
      obtain ⟨w, heq, hwm, hbest⟩ := ih m hnd'
      have hmn' : promoBetter m n := by
        rcases promoBetter_total (a := m) (b := n) (fun h => hmn h) with h | h
        · exact h
        · exact absurd h hb
      refine ⟨w, ?_, ?_, ?_⟩
      · rw [List.foldl_cons]
        show List.foldl pickStep (if promoBetter n m then some n else some m)
          rest = some w
        rw [if_neg hb]; exact heq
      · rcases List.mem_cons.mp hwm with rfl | hwm
        · exact List.mem_cons_self _ _
        · exact List.mem_cons_of_mem _ (List.mem_cons_of_mem _ hwm)
      · intro x hx hxw
        rcases List.mem_cons.mp hx with rfl | hx
        · exact hbest x (List.mem_cons_self _ _) hxw
        · rcases List.mem_cons.mp hx with rfl | hx
          · by_cases hwm' : w = m
            · exact hwm' ▸ hmn'
            · exact promoBetter_trans (hbest m (List.mem_cons_self _ _)
                (fun h => hwm' h.symm)) hmn'
          · exact hbest x (List.mem_cons_of_mem _ hx) hxw

/-! ## Node Registry operations and split-brain resolution
(modelled from the spec) -/

/-- Does this node currently hold the master role. -/
def isMaster (n : ClusterNode) : Bool := n.role = Role.master

/-- Value of the health snapshot field master_count: number of registered nodes
with `role = master`. -/
def masterCount (s : List ClusterNode) : Nat := s.countP isMaster

/-- Modelled from the spec: registration appends a new member joining as
a replica (role is mutated only by the Role Coordinator); a duplicate
`node_id` is rejected since `node_id` is unique and immutable. -/
def registerNode (n : ClusterNode) (s : List ClusterNode) : List ClusterNode :=
  if s.any (fun m => m.node_id = n.node_id) then s
  else s ++ [{ n with role := Role.replica }]

/-- Set the role of the node with the given id to master. -/
def promoteById (nid : String) (s : List ClusterNode) : List ClusterNode :=
  s.map (fun m => if m.node_id = nid then { m with role := Role.master } else m)

/-- Modelled from the spec: no-master recovery — run the deterministic
promotion algorithm over the remaining nodes and promote its pick, if
any eligible replica exists. -/
def noMasterRecovery (threshold : Nat) (s : List ClusterNode) : List ClusterNode :=
  match selectPromotion threshold s with
  | none => s
  | some w => promoteById w.node_id s

/-- Modelled from the spec: removal deregisters the node; removing the
current master triggers the Role Coordinator's no-master recovery path
before returning. -/
def removeNode (threshold : Nat) (nid : String) (s : List ClusterNode) :
    List ClusterNode :=
  match s.find? (fun m => m.node_id = nid) with
  | none => s
  | some m =>
    let s' := s.filter (fun x => x.node_id ≠ nid)
    if m.role = Role.master then noMasterRecovery threshold s' else s'

/-- A register or remove operation on the Node Registry. -/
inductive RegOp where
  | register (n : ClusterNode)
  | remove (nid : String)

/-- Apply one registry operation. -/
def applyRegOp (threshold : Nat) (s : List ClusterNode) (op : RegOp) :
    List ClusterNode :=
  match op with
  | .register n => registerNode n s
  | .remove nid => removeNode threshold nid s

/-- Apply a sequence of registry operations. -/
def applyRegOps (threshold : Nat) (ops : List RegOp) (s : List ClusterNode) :
    List ClusterNode :=
  ops.foldl (applyRegOp threshold) s

/-- Pick the preferred node of a list (used on the set of competing
masters during split-brain resolution). -/
def pickWinner (l : List ClusterNode) : Option ClusterNode :=
  l.foldl pickStep none

/-- Modelled from the spec: split-brain resolution keeps the master
preferred by priority/lag and forcibly demotes every other master. -/
def resolveSplitBrain (s : List ClusterNode) : List ClusterNode :=
  match pickWinner (s.filter isMaster) with
  | none => s
  | some w =>
    s.map (fun m =>
      if m.node_id = w.node_id then m
      else if m.role = Role.master then { m with role := Role.replica } else m)

theorem pickStep_foldl_isSome :
    ∀ (l : List ClusterNode) (m : ClusterNode),
      ∃ w, List.foldl pickStep (some m) l = some w := by
  intro l
  induction l with
  | nil => intro m; exact ⟨m, rfl⟩
  | cons n rest ih =>
    intro m
    rw [List.foldl_cons]
    show ∃ w, List.foldl pickStep
      (if promoBetter n m then some n else some m) rest = some w
    by_cases hb : promoBetter n m
    · rw [if_pos hb]; exact ih n
    · rw [if_neg hb]; exact ih m

theorem pickStep_foldl_mem :
    ∀ (l : List ClusterNode) (acc : Option ClusterNode) (w : ClusterNode),
      List.foldl pickStep acc l = some w → acc = some w ∨ w ∈ l := by
  intro l
  induction l with
  | nil => intro acc w h; exact Or.inl h
  | cons n rest ih =>
    intro acc w h
    rw [List.foldl_cons] at h
    rcases ih (pickStep acc n) w h with h' | h'
    · cases acc with
      | none =>
        simp only [pickStep] at h'
        exact Or.inr (by rw [← Option.some.injEq _ w |>.mp h']; exact List.mem_cons_self _ _)
      | some m =>
        simp only [pickStep] at h'
        by_cases hb : promoBetter n m
        · rw [if_pos hb] at h'
          exact Or.inr (by rw [← Option.some.injEq _ w |>.mp h']; exact List.mem_cons_self _ _)
        · rw [if_neg hb] at h'
          exact Or.inl h'
    · exact Or.inr (List.mem_cons_of_mem _ h')

theorem selectPromotion_mem {threshold : Nat} {s : List ClusterNode}
    {w : ClusterNode} (h : selectPromotion threshold s = some w) :
    w ∈ s ∧ eligibleB threshold w = true := by
  unfold selectPromotion at h
  rcases pickStep_foldl_mem _ none w h with h' | h'
  · cases h'
  · exact ⟨(List.mem_filter.mp h').1, (List.mem_filter.mp h').2⟩

theorem two_masters_count {s : List ClusterNode} {x y : ClusterNode}
    (hx : x ∈ s) (hy : y ∈ s) (hxy : x ≠ y)
    (hxm : isMaster x = true) (hym : isMaster y = true) :
    2 ≤ masterCount s := by
  obtain ⟨a, b, rfl⟩ := List.append_of_mem hx
  unfold masterCount
  rw [List.countP_append, List.countP_cons, hxm, if_pos rfl]
  have hy' : y ∈ a ∨ y ∈ b := by
    rcases List.mem_append.mp hy with h | h
    · exact Or.inl h
    · rcases List.mem_cons.mp h with h | h
      · exact absurd h.symm hxy
      · exact Or.inr h
  rcases hy' with h | h
  · have : 0 < a.countP isMaster := List.countP_pos_iff.mpr ⟨y, h, hym⟩
    omega
  · have : 0 < b.countP isMaster := List.countP_pos_iff.mpr ⟨y, h, hym⟩
    omega

theorem countP_key_eq_one (p : ClusterNode → Bool) :
    ∀ (s : List ClusterNode) (w : ClusterNode),
      (s.map ClusterNode.node_id).Nodup → w ∈ s → p w = true →
      (∀ m, p m = true → m.node_id = w.node_id) →
      s.countP p = 1 := by
  intro s
  induction s with
  | nil => intro w _ hw; cases hw
  | cons a rest ih =>
    intro w hnd hw hpw hkey
    rw [List.map_cons, List.nodup_cons] at hnd
    rw [List.countP_cons]
    rcases List.mem_cons.mp hw with rfl | hw
    · have hzero : rest.countP p = 0 := by
        rw [List.countP_eq_zero]
        intro m hm hpm
        exact hnd.1 (hkey m hpm ▸ List.mem_map_of_mem _ hm)
      rw [hzero, hpw, if_pos rfl]
    · have hpa : p a = false := by
        rcases hfa : p a with _ | _
        · rfl
        · exact absurd (hkey a hfa ▸ List.mem_map_of_mem ClusterNode.node_id hw)
            hnd.1
      rw [hpa, ih w hnd.2 hw hpw hkey]
      simp

theorem map_node_id_promoteById (nid : String) (s : List ClusterNode) :
    (promoteById nid s).map ClusterNode.node_id = s.map ClusterNode.node_id := by
  unfold promoteById
  rw [List.map_map]
  apply List.map_congr_left
  intro m _
  by_cases h : m.node_id = nid <;> simp [h]

theorem masterCount_promoteById (nid : String) (s : List ClusterNode) :
    masterCount (promoteById nid s) =
      s.countP (fun m => m.node_id = nid || isMaster m) := by
  unfold masterCount promoteById
  rw [List.countP_map]
  apply List.countP_congr
  intro m _
  by_cases h : m.node_id = nid <;> simp [h, Function.comp, isMaster]

/-- Registry invariant: unique node ids and at most one master. -/
def RegInv (s : List ClusterNode) : Prop :=
  (s.map ClusterNode.node_id).Nodup ∧ masterCount s ≤ 1

theorem regInv_registerNode (n : ClusterNode) (s : List ClusterNode)
    (h : RegInv s) : RegInv (registerNode n s) := by
  unfold registerNode
  by_cases hany : s.any (fun m => m.node_id = n.node_id)
  · rw [if_pos hany]; exact h
  · rw [if_neg hany]
    constructor
    · rw [List.map_append]
      refine List.Nodup.append h.1 (List.nodup_singleton _) ?_
      intro a ha hb
      simp only [List.map_cons, List.map_nil, List.mem_singleton] at hb
      obtain ⟨m, hm, hmid⟩ := List.mem_map.mp ha
      exact hany (List.any_eq_true.mpr ⟨m, hm, by simp [hmid, hb]⟩)
    · have h2 : List.countP isMaster s ≤ 1 := h.2
      unfold masterCount
      rw [List.countP_append]
      have hrep : List.countP isMaster [{ n with role := Role.replica }] = 0 := by
        simp [isMaster]
      omega

theorem masterCount_filter_removed {s : List ClusterNode} {m : ClusterNode}
    {nid : String} (hm : m ∈ s) (hmid : m.node_id = nid)
    (hmr : isMaster m = true) (hcount : masterCount s ≤ 1) :
    masterCount (s.filter (fun x => x.node_id ≠ nid)) = 0 := by
  unfold masterCount
  rw [List.countP_eq_zero]
  intro x hx hxm
  have hxs := List.mem_filter.mp hx
  have hxid : x.node_id ≠ nid := by
    have := hxs.2
    simpa using this
  have hxneq : x ≠ m := fun h => hxid (h ▸ hmid)
  exact absurd (two_masters_count hxs.1 hm hxneq hxm hmr) (by omega)

theorem regInv_noMasterRecovery (threshold : Nat) (s : List ClusterNode)
    (hnd : (s.map ClusterNode.node_id).Nodup) (hzero : masterCount s = 0) :
    RegInv (noMasterRecovery threshold s) := by
  unfold noMasterRecovery
  cases hsel : selectPromotion threshold s with
  | none => exact ⟨hnd, show masterCount s ≤ 1 by omega⟩
  | some w =>
    obtain ⟨hwmem, _⟩ := selectPromotion_mem hsel
    show RegInv (promoteById w.node_id s)
    constructor
    · rw [map_node_id_promoteById]; exact hnd
    · rw [masterCount_promoteById]
      have hcongr : s.countP (fun m => m.node_id = w.node_id || isMaster m) =
          s.countP (fun m => m.node_id = w.node_id) := by
        apply List.countP_congr
        intro a ha
        have hna : isMaster a = false := by
          rcases hfa : isMaster a with _ | _
          · rfl
          · exact absurd (List.countP_eq_zero.mp hzero a ha hfa) (fun h => h)
        simp [hna]
      rw [hcongr,
        countP_key_eq_one (fun m => m.node_id = w.node_id) s w hnd hwmem
          (by simp) (fun m hm => by simpa using hm)]

theorem regInv_removeNode (threshold : Nat) (nid : String)
    (s : List ClusterNode) (h : RegInv s) :
    RegInv (removeNode threshold nid s) := by
  unfold removeNode
  cases hfind : s.find? (fun m => m.node_id = nid) with
  | none => exact h
  | some m =>
    have hmmem : m ∈ s := List.mem_of_find?_eq_some hfind
    have hmid : m.node_id = nid := by
      have := List.find?_some hfind
      simpa using this
    have hndf : ((s.filter (fun x => x.node_id ≠ nid)).map
        ClusterNode.node_id).Nodup :=
      List.Nodup.sublist (List.Sublist.map _ (List.filter_sublist s)) h.1
    show RegInv (if m.role = Role.master
      then noMasterRecovery threshold (s.filter (fun x => x.node_id ≠ nid))
      else s.filter (fun x => x.node_id ≠ nid))
    by_cases hrole : m.role = Role.master
    · rw [if_pos hrole]
      exact regInv_noMasterRecovery threshold _ hndf
        (masterCount_filter_removed hmmem hmid (by simp [isMaster, hrole]) h.2)
    · rw [if_neg hrole]
      exact ⟨hndf, le_trans
        ((List.filter_sublist s).countP_le isMaster) h.2⟩

theorem regInv_applyRegOps (threshold : Nat) (ops : List RegOp) :
    ∀ s : List ClusterNode, RegInv s →
      RegInv (applyRegOps threshold ops s) := by
  induction ops with
  | nil => intro s h; exact h
  | cons op rest ih =>
    intro s h
    unfold applyRegOps at *
    rw [List.foldl_cons]
    apply ih
    cases op with
    | register n => exact regInv_registerNode n s h
    | remove nid => exact regInv_removeNode threshold nid s h

theorem resolveSplitBrain_masterCount (t : List ClusterNode)
    (hnd : (t.map ClusterNode.node_id).Nodup)
    (hm : 1 ≤ masterCount t) :
    masterCount (resolveSplitBrain t) = 1 := by
  unfold resolveSplitBrain
  have hne : t.filter isMaster ≠ [] := by
    intro hnil
    unfold masterCount at hm
    rw [List.countP_eq_length_filter, hnil] at hm
    simp at hm
  obtain ⟨hd, tl, hl⟩ := List.exists_cons_of_ne_nil hne
  have hsome : ∃ w, pickWinner (t.filter isMaster) = some w := by
    unfold pickWinner
    rw [hl, List.foldl_cons]
    exact pickStep_foldl_isSome tl hd
  obtain ⟨w, hw⟩ := hsome
  rw [hw]
  have hwmem : w ∈ t.filter isMaster := by
    rcases pickStep_foldl_mem _ none w hw with h' | h'
    · cases h'
    · exact h'
  have hwt : w ∈ t := (List.mem_filter.mp hwmem).1
  have hwm : isMaster w = true := (List.mem_filter.mp hwmem).2
  unfold masterCount
  rw [List.countP_map]
  have hcongr : t.countP
      ((fun n => isMaster n) ∘ (fun m =>
        if m.node_id = w.node_id then m
        else if m.role = Role.master then { m with role := Role.replica }
        else m)) =
      t.countP (fun m => m.node_id = w.node_id && isMaster m) := by
    apply List.countP_congr
    intro a _
    by_cases hid : a.node_id = w.node_id
    · simp [Function.comp, hid]
    · by_cases hr : a.role = Role.master <;>
        simp [Function.comp, hid, hr, isMaster]
  rw [hcongr,
    countP_key_eq_one (fun m => m.node_id = w.node_id && isMaster m) t w hnd
      hwt (by simp [hwm]) (fun m hmp => by
        simp only [Bool.and_eq_true, decide_eq_true_eq] at hmp
        exact hmp.1)]

/-! ## Role transitions with health preconditions (modelled from the spec) -/

/-- Audit severity: forced role transitions are logged as high severity. -/
inductive AuditSeverity where
  | normal
  | high
deriving DecidableEq, Repr

/-- One entry of the coordinator's audit trail. -/
structure AuditEvent where
  action : String
  node_id : String
  forced : Bool
  severity : AuditSeverity
deriving DecidableEq, Repr

/-- Coordinator-visible state: the registry plus the audit trail. -/
structure CoordState where
  nodes : List ClusterNode
  audit : List AuditEvent
deriving DecidableEq, Repr

/-- Errors surfaced by promote/demote. -/
inductive RoleError where
  | notFound
  | badStatus
deriving DecidableEq, Repr

/-- Set the role of the node with the given id to replica. -/
def demoteById (nid : String) (s : List ClusterNode) : List ClusterNode :=
  s.map (fun m => if m.node_id = nid then { m with role := Role.replica } else m)

/-- Modelled from the spec: `POST /cluster/nodes/promote {node_id, force}` —
the target must be `healthy` or `degraded` unless `force` is passed; the
transition is appended to the audit trail, with high severity when forced.
On failure the state is returned unchanged. -/
def promoteNode (st : CoordState) (nid : String) (force : Bool) :
    CoordState × Option RoleError :=
  match st.nodes.find? (fun x => x.node_id = nid) with
  | none => (st, some .notFound)
  | some m =>
    if (m.status = NodeStatus.unhealthy ∨ m.status = NodeStatus.offline) ∧
        force = false then
      (st, some .badStatus)
    else
      ({ nodes := promoteById nid st.nodes,
         audit := st.audit
           ++ [⟨"promote", nid, force,
                if force then AuditSeverity.high else AuditSeverity.normal⟩] },
       none)

/-- Modelled from the spec: `POST /cluster/nodes/{id}/demote` with the
same health precondition and forced-transition auditing as promotion. -/
def demoteNode (st : CoordState) (nid : String) (force : Bool) :
    CoordState × Option RoleError :=
  match st.nodes.find? (fun x => x.node_id = nid) with
  | none => (st, some .notFound)
  | some m =>
    if (m.status = NodeStatus.unhealthy ∨ m.status = NodeStatus.offline) ∧
        force = false then
      (st, some .badStatus)
    else
      ({ nodes := demoteById nid st.nodes,
         audit := st.audit
           ++ [⟨"demote", nid, force,
                if force then AuditSeverity.high else AuditSeverity.normal⟩] },
       none)

/-! ## Cluster API error mapping (modelled from the spec) -/

/-- Modelled from the spec: the internal error kinds surfaced at the
Cluster API boundary. -/
inductive ApiErrorKind where
  | authMissingToken
  | authInvalidToken
  | authInsufficientRole
  | nodeNotFound
  | migrationNotFound
  | importConflictFailPolicy
  | internal
  | routingUnavailable
deriving DecidableEq, Repr

/-- Modelled from the spec: the facade's mapping from internal error kind
to HTTP status code (`401` missing token, `403` invalid token or
insufficient role, `404` unknown node/migration, `409` import conflict
under the `fail` policy, `500` internal, `503` routing unavailable). -/
def statusCode : ApiErrorKind → Nat
  | .authMissingToken => 401
  | .authInvalidToken => 403
  | .authInsufficientRole => 403
  | .nodeNotFound => 404
  | .migrationNotFound => 404
  | .importConflictFailPolicy => 409
  | .internal => 500
  | .routingUnavailable => 503

/-! ## Migration Engine (modelled from the spec) -/

/-- One document inside a migration package; `wellFormed` models whether
the document parses during import (a malformed document makes its
collection's import fail, per the spec's failure scenario). -/
structure PkgDoc where
  doc_id : String
  content : String
  wellFormed : Bool
deriving DecidableEq, Repr

/-- The logical database: collection name ↦ documents `(doc_id, content)`. -/
def DB := String → List (String × String)

/-- The database with no collections. -/
def emptyDB : DB := fun _ => []

/-- Replace one collection's contents. -/
def setColl (n : String) (c : List (String × String)) (db : DB) : DB :=
  fun m => if m = n then c else db m

/-- Insert one package document, replacing any existing document with the
same `doc_id`. -/
def upsertDoc (existing : List (String × String)) (d : PkgDoc) :
    List (String × String) :=
  (d.doc_id, d.content) :: existing.filter (fun kv => kv.1 ≠ d.doc_id)

/-- Write a collection's package documents over its existing documents. -/
def mergeDocs (existing : List (String × String)) (docs : List PkgDoc) :
    List (String × String) :=
  docs.foldl upsertDoc existing

/-- Outcome of an import run. -/
inductive ImportStatus where
  | success
  | failed
deriving DecidableEq, Repr

/-- Restore saved pre-import collection snapshots, most recent first. -/
def restoreAll (saved : List (String × List (String × String))) (db : DB) :
    DB :=
  saved.foldl (fun d nc => setColl nc.1 nc.2 d) db

/-- Import one collection of the package into the database. -/
def applyColl (db : DB) (c : String × List PkgDoc) : DB :=
  setColl c.1 (mergeDocs (db c.1) c.2) db

/-- Modelled from the spec: the import loop — before touching each
collection its pre-import contents are saved to the rollback snapshot;
a malformed document fails the run after a partial write to the current
collection, and with rollback enabled every touched collection is
restored from the snapshot before the failure is reported. -/
def importCollections (rollback : Bool) :
    List (String × List PkgDoc) →
    List (String × List (String × String)) → DB → ImportStatus × DB
  | [], _, db => (.success, db)
  | (name, docs) :: rest, saved, db =>
    let saved' := (name, db name) :: saved
    if docs.all (fun d => d.wellFormed) then
      importCollections rollback rest saved'
        (setColl name (mergeDocs (db name) docs) db)
    else
      let halfWritten :=
        setColl name
          (mergeDocs (db name) (docs.takeWhile (fun d => d.wellFormed))) db
      (.failed, if rollback then restoreAll saved' halfWritten else halfWritten)

/-- Run an import of a whole package. -/
def importRun (rollback : Bool) (pkg : List (String × List PkgDoc))
    (db : DB) : ImportStatus × DB :=
  importCollections rollback pkg [] db

/-- The fully-applied import (every collection written, no failure). -/
def importAllOk (pkg : List (String × List PkgDoc)) (db : DB) : DB :=
  pkg.foldl applyColl db

/-- Serialize the database's named collections into package collections
(every stored document is well-formed by construction). -/
def exportDB (names : List String) (db : DB) :
    List (String × List PkgDoc) :=
  names.map (fun n => (n, (db n).map (fun kv => ⟨kv.1, kv.2, true⟩)))

/-- Modelled from the spec: the package digest. SHA-256 is idealized as a
perfect (collision-free) fingerprint of the full serialized payload,
represented by the canonical serialized payload itself — the standard
idealization of an injective cryptographic hash. -/
def digest (payload : List (String × List PkgDoc)) :
    List (String × List PkgDoc) :=
  payload

/-- Modelled from the spec: a migration package — serialized collections
plus the overall checksum computed at export time. -/
structure MigrationPackage where
  collections : List (String × List PkgDoc)
  checksum : List (String × List PkgDoc)
deriving DecidableEq, Repr

/-- Build a package from payload, stamping the overall checksum. -/
def mkPackage (payload : List (String × List PkgDoc)) : MigrationPackage :=
  ⟨payload, digest payload⟩

/-- Modelled from the spec: import-time integrity validation — recompute
the digest of the payload and compare with the stored checksum. -/
def verifyPackage (pkg : MigrationPackage) : Bool :=
  pkg.checksum = digest pkg.collections

theorem setColl_self (n : String) (db : DB) : setColl n (db n) db = db := by
  funext m
  unfold setColl
  by_cases h : m = n
  · rw [if_pos h, h]
  · rw [if_neg h]

theorem setColl_setColl (n : String) (c c' : List (String × String))
    (db : DB) : setColl n c (setColl n c' db) = setColl n c db := by
  funext m
  unfold setColl
  by_cases h : m = n
  · rw [if_pos h, if_pos h]
  · rw [if_neg h, if_neg h, if_neg h]

theorem setColl_other {n m : String} (h : m ≠ n)
    (c : List (String × String)) (db : DB) : setColl n c db m = db m := by
  unfold setColl
  rw [if_neg h]

theorem importCollections_spec :
    ∀ (rest : List (String × List PkgDoc))
      (saved : List (String × List (String × String))) (db db₀ : DB),
      restoreAll saved db = db₀ →
      importCollections true rest saved db =
        (ImportStatus.success, rest.foldl applyColl db) ∨
      importCollections true rest saved db = (ImportStatus.failed, db₀) := by
  intro rest
  induction rest with
  | nil => intro saved db db₀ _; exact Or.inl rfl
  | cons c rest ih =>
    intro saved db db₀ hsave
    obtain ⟨name, docs⟩ := c
    by_cases hwf : docs.all (fun d => d.wellFormed)
    · have hred : importCollections true ((name, docs) :: rest) saved db =
          importCollections true rest ((name, db name) :: saved)
            (setColl name (mergeDocs (db name) docs) db) := by
        show (if docs.all (fun d => d.wellFormed) then
            importCollections true rest ((name, db name) :: saved)
              (setColl name (mergeDocs (db name) docs) db)
          else
            (ImportStatus.failed,
              restoreAll ((name, db name) :: saved)
                (setColl name
                  (mergeDocs (db name)
                    (docs.takeWhile (fun d => d.wellFormed))) db))) =
          importCollections true rest ((name, db name) :: saved)
            (setColl name (mergeDocs (db name) docs) db)
        rw [if_pos hwf]
      have hsave' : restoreAll ((name, db name) :: saved)
          (setColl name (mergeDocs (db name) docs) db) = db₀ := by
        show restoreAll saved
          (setColl name (db name)
            (setColl name (mergeDocs (db name) docs) db)) = db₀
        rw [setColl_setColl, setColl_self]
        exact hsave
      rw [hred, List.foldl_cons]
      exact ih ((name, db name) :: saved)
        (setColl name (mergeDocs (db name) docs) db) db₀ hsave'
    · have hred : importCollections true ((name, docs) :: rest) saved db =
          (ImportStatus.failed,
            restoreAll ((name, db name) :: saved)
              (setColl name
                (mergeDocs (db name)
                  (docs.takeWhile (fun d => d.wellFormed))) db)) := by
        show (if docs.all (fun d => d.wellFormed) then
            importCollections true rest ((name, db name) :: saved)
              (setColl name (mergeDocs (db name) docs) db)
          else
            (ImportStatus.failed,
              restoreAll ((name, db name) :: saved)
                (setColl name
                  (mergeDocs (db name)
                    (docs.takeWhile (fun d => d.wellFormed))) db))) =
          (ImportStatus.failed,
            restoreAll ((name, db name) :: saved)
              (setColl name
                (mergeDocs (db name)
                  (docs.takeWhile (fun d => d.wellFormed))) db))
        rw [if_neg hwf]
      have hrest : restoreAll ((name, db name) :: saved)
          (setColl name
            (mergeDocs (db name) (docs.takeWhile (fun d => d.wellFormed)))
            db) = db₀ := by
        show restoreAll saved (setColl name (db name) (setColl name _ db)) = db₀
        rw [setColl_setColl, setColl_self]
        exact hsave
      rw [hred, hrest]
      exact Or.inr rfl

theorem importCollections_success :
    ∀ (pkg : List (String × List PkgDoc))
      (saved : List (String × List (String × String))) (db : DB),
      (∀ c ∈ pkg, c.2.all (fun d => d.wellFormed) = true) →
      importCollections true pkg saved db =
        (ImportStatus.success, pkg.foldl applyColl db) := by
  intro pkg
  induction pkg with
  | nil => intro saved db _; rfl
  | cons c rest ih =>
    intro saved db hwf
    obtain ⟨name, docs⟩ := c
    have hd : docs.all (fun d => d.wellFormed) = true :=
      hwf (name, docs) (List.mem_cons_self _ _)
    have hred : importCollections true ((name, docs) :: rest) saved db =
        importCollections true rest ((name, db name) :: saved)
          (setColl name (mergeDocs (db name) docs) db) := by
      show (if docs.all (fun d => d.wellFormed) then
          importCollections true rest ((name, db name) :: saved)
            (setColl name (mergeDocs (db name) docs) db)
        else
          (ImportStatus.failed,
            restoreAll ((name, db name) :: saved)
              (setColl name
                (mergeDocs (db name)
                  (docs.takeWhile (fun d => d.wellFormed))) db))) =
        importCollections true rest ((name, db name) :: saved)
          (setColl name (mergeDocs (db name) docs) db)
      rw [if_pos hd]
    rw [hred, List.foldl_cons]
    exact ih ((name, db name) :: saved)
      (setColl name (mergeDocs (db name) docs) db)
      (fun x hx => hwf x (List.mem_cons_of_mem _ hx))

theorem foldl_applyColl_not_mem :
    ∀ (pkg : List (String × List PkgDoc)) (db : DB) (n : String),
      n ∉ pkg.map Prod.fst → (pkg.foldl applyColl db) n = db n := by
  intro pkg
  induction pkg with
  | nil => intro db n _; rfl
  | cons c rest ih =>
    intro db n hn
    rw [List.map_cons, List.mem_cons, not_or] at hn
    rw [List.foldl_cons, ih _ n hn.2]
    exact setColl_other hn.1 _ db

theorem exported_map_fst (names : List String) (db : DB) :
    (exportDB names db).map Prod.fst = names := by
  unfold exportDB
  induction names with
  | nil => rfl
  | cons a rest ih => rw [List.map_cons, List.map_cons, ih]

theorem exported_foldl_eval :
    ∀ (names : List String) (db target : DB), names.Nodup →
      ∀ n ∈ names,
        ((exportDB names db).foldl applyColl target) n =
          mergeDocs (target n)
            ((db n).map (fun kv => ⟨kv.1, kv.2, true⟩)) := by
  intro names
  induction names with
  | nil => intro db target _ n hn; cases hn
  | cons a rest ih =>
    intro db target hnd n hn
    rw [List.nodup_cons] at hnd
    have hstep : (exportDB (a :: rest) db).foldl applyColl target =
        (exportDB rest db).foldl applyColl
          (applyColl target (a, (db a).map (fun kv => ⟨kv.1, kv.2, true⟩))) := rfl
    rw [hstep]
    rcases List.mem_cons.mp hn with rfl | hn
    · have hnot : n ∉ (exportDB rest db).map Prod.fst := by
        rw [exported_map_fst]; exact hnd.1
      rw [foldl_applyColl_not_mem _ _ n hnot]
      show setColl n (mergeDocs (target n) _) target n = _
      unfold setColl
      rw [if_pos rfl]
    · have hne : n ≠ a := fun h => hnd.1 (h ▸ hn)
      rw [ih db _ hnd.2 n hn]
      congr 1
      exact setColl_other hne _ target

theorem mergeDocs_mem :
    ∀ (docs : List PkgDoc) (acc : List (String × String)),
      (docs.map PkgDoc.doc_id).Nodup →
      (∀ kv ∈ acc, ∀ d ∈ docs, kv.1 ≠ d.doc_id) →
      ∀ kv, kv ∈ mergeDocs acc docs ↔
        kv ∈ acc ∨ ∃ d ∈ docs, kv = (d.doc_id, d.content) := by
  intro docs
  induction docs with
  | nil =>
    intro acc _ _ kv
    show kv ∈ acc ↔ _
    simp
  | cons d ds ih =>
    intro acc hnd hdisj kv
    rw [List.map_cons, List.nodup_cons] at hnd
    have hfilter : acc.filter (fun kv => kv.1 ≠ d.doc_id) = acc := by
      rw [List.filter_eq_self]
      intro kv hkv
      simpa using hdisj kv hkv d (List.mem_cons_self _ _)
    have hstep : mergeDocs acc (d :: ds) =
        mergeDocs ((d.doc_id, d.content) :: acc) ds := by
      show mergeDocs (upsertDoc acc d) ds = _
      unfold upsertDoc
      rw [hfilter]
    rw [hstep]
    rw [ih ((d.doc_id, d.content) :: acc) hnd.2 ?_ kv]
    · constructor
      · rintro (h | h)
        · rcases List.mem_cons.mp h with h | h
          · exact Or.inr ⟨d, List.mem_cons_self _ _, h⟩
          · exact Or.inl h
        · obtain ⟨d', hd', hkv⟩ := h
          exact Or.inr ⟨d', List.mem_cons_of_mem _ hd', hkv⟩
      · rintro (h | h)
        · exact Or.inl (List.mem_cons_of_mem _ h)
        · obtain ⟨d', hd', hkv⟩ := h
          rcases List.mem_cons.mp hd' with rfl | hd'
          · exact Or.inl (hkv ▸ List.mem_cons_self _ _)
          · exact Or.inr ⟨d', hd', hkv⟩
    · intro kv' hkv' d' hd'
      rcases List.mem_cons.mp hkv' with rfl | hkv'
      · show d.doc_id ≠ d'.doc_id
        intro h
        exact hnd.1 (h ▸ List.mem_map_of_mem _ hd')
      · exact hdisj kv' hkv' d' (List.mem_cons_of_mem _ hd')

end SBD

namespace SBD

/-- C9: `formatUptime` renders days+hours for `s ≥ 86400`, hours+minutes
for `3600 ≤ s < 86400`, and `floor(s/60)` minutes for `s < 3600`; in
particular any uptime under one minute renders as `"0m"` (the second
conjunct evaluates the function at `s % 60 < 60`). -/
theorem formatUptime_cases (s : Nat) :
    formatUptime s =
      (if 86400 ≤ s then
        toString (s / 86400) ++ "d " ++ toString ((s % 86400) / 3600) ++ "h"
      else if 3600 ≤ s then
        toString ((s % 86400) / 3600) ++ "h " ++ toString ((s % 3600) / 60) ++ "m"
      else toString (s / 60) ++ "m") ∧
    formatUptime (s % 60) = "0m" := by
  constructor
  · unfold formatUptime
    by_cases h1 : 86400 ≤ s
    · have hd : s / 86400 > 0 := Nat.div_pos h1 (by norm_num)
      simp [hd, h1]
    · have hd : s / 86400 = 0 := Nat.div_eq_of_lt (Nat.lt_of_not_le h1)
      have hs : s % 86400 = s := Nat.mod_eq_of_lt (Nat.lt_of_not_le h1)
      by_cases h2 : 3600 ≤ s
      · have hh : s / 3600 > 0 := Nat.div_pos h2 (by norm_num)
        simp [hd, hh, h1, h2, hs]
      · have hh : (s % 86400) / 3600 = 0 := by
          rw [hs]; exact Nat.div_eq_of_lt (Nat.lt_of_not_le h2)
        have hs3 : s % 3600 = s := Nat.mod_eq_of_lt (Nat.lt_of_not_le h2)
        simp [hd, hh, h1, h2, hs3]
  · have hlt : s % 60 < 60 := Nat.mod_lt _ (by norm_num)
    unfold formatUptime
    have hd : s % 60 / 86400 = 0 := Nat.div_eq_of_lt (by omega)
    have h86 : s % 60 % 86400 = s % 60 := Nat.mod_eq_of_lt (by omega)
    have hh : s % 60 % 86400 / 3600 = 0 := by rw [h86]; exact Nat.div_eq_of_lt (by omega)
    have h36 : s % 60 % 3600 = s % 60 := Nat.mod_eq_of_lt (by omega)
    have hm : s % 60 % 3600 / 60 = 0 := by rw [h36]; exact Nat.div_eq_of_lt hlt
    simp only [hd, hh, hm, gt_iff_lt, Nat.lt_irrefl, if_false]
    rfl

/-- C10: the three severity cards count exactly the alerts with severity
`critical`, `warning`, `info`; the total card counts all alerts, so the
three cards plus the `error` alerts partition the total, and the sum of
the three severity counts equals the total minus the `error` count. -/
theorem alert_card_counts (alerts : List Alert) :
    criticalCount alerts + warningCount alerts + infoCount alerts
        + errorCount alerts = totalCount alerts ∧
    criticalCount alerts + warningCount alerts + infoCount alerts
        = totalCount alerts - errorCount alerts := by
  have h : criticalCount alerts + warningCount alerts + infoCount alerts
      + errorCount alerts = totalCount alerts := by
    induction alerts with
    | nil => rfl
    | cons a rest ih =>
      unfold criticalCount warningCount infoCount errorCount totalCount at *
      cases ha : a.severity <;> simp [List.filter, ha] <;> omega
  exact ⟨h, by omega⟩

/-- C2: the Applier is idempotent — delivering the same batch `n + 1`
times (any number of deliveries ≥ 1, covering every duplicate delivery
after a retry) leaves the target's post-state identical to delivering it
exactly once, because apply-or-skip is keyed by `event_id` per target. -/
theorem applier_idempotent (n : Nat) (b : List ReplicationEvent) (s : ReplState) :
    applyBatchTimes (n + 1) b s = applyBatch s b := by
  induction n generalizing s with
  | zero => rfl
  | succ n ih =>
    show applyBatchTimes (n + 1) b (applyBatch s b) = applyBatch s b
    rw [ih (applyBatch s b)]
    exact applyBatch_twice b s

/-- C3: delivery order does not matter, application order is
`sequence_number` order — for events of one source (strictly increasing,
hence pairwise-distinct sequence numbers), applying any permutation of
the event set after re-sorting by `sequence_number` yields the same
replica state; and re-timestamping every event (clock skew) changes
neither the application order nor the resulting state. -/
theorem replay_order_independence (l₁ l₂ : List ReplicationEvent)
    (g : Nat → Nat) (s : ReplState)
    (hperm : l₁.Perm l₂)
    (hnd : (l₁.map ReplicationEvent.sequence_number).Nodup) :
    applyBatch s (sortBySeq l₁) = applyBatch s (sortBySeq l₂) ∧
    applyBatch s (sortBySeq (l₁.map (retime g))) =
      applyBatch s (sortBySeq l₁) := by
  refine ⟨?_, ?_⟩
  · rw [sortBySeq_eq_of_perm l₁ l₂ hperm hnd]
  · rw [sortBySeq_map_retime, applyBatch_map_retime]

/-- Two concrete replication events from one source, delivered in the two
possible arrival orders. -/
def evA : ReplicationEvent :=
  ⟨"evt-1", 1, .insert, "users", "doc-1", "alice", 50, "node-1"⟩

/-- Second concrete replication event (higher sequence number but an
earlier wall-clock timestamp, exhibiting clock skew). -/
def evB : ReplicationEvent :=
  ⟨"evt-2", 2, .update, "users", "doc-1", "bob", 40, "node-1"⟩

/-- C4: promotion selection is a pure deterministic function of the
health snapshot (being a Lean function, `selectPromotion` trivially
returns the same node on repeated invocations of the same snapshot);
on any snapshot with pairwise-distinct `node_id`s and a non-empty set of
eligible replicas it selects an eligible member of the snapshot that is
strictly preferred — highest `capabilities.priority`, ties broken by
lowest lag, then by lexicographically smallest `node_id` — over every
other eligible replica. -/
theorem promotion_selection_correct (threshold : Nat)
    (snap : List ClusterNode)
    (hnd : (snap.map ClusterNode.node_id).Nodup)
    (hne : snap.filter (eligibleB threshold) ≠ []) :
    ∃ w, selectPromotion threshold snap = some w ∧
      w ∈ snap ∧ eligibleB threshold w = true ∧
      ∀ m ∈ snap, eligibleB threshold m = true → m ≠ w → promoBetter w m := by
  obtain ⟨h, t, hl⟩ := List.exists_cons_of_ne_nil hne
  have hndf : ((snap.filter (eligibleB threshold)).map ClusterNode.node_id).Nodup :=
    List.Nodup.sublist (List.Sublist.map _ (List.filter_sublist snap)) hnd
  obtain ⟨w, heq, hwm, hbest⟩ := pickStep_foldl_spec t h (hl ▸ hndf)
  refine ⟨w, ?_, ?_, ?_, ?_⟩
  · unfold selectPromotion
    rw [hl, List.foldl_cons]
    exact heq
  · exact (List.mem_filter.mp (hl ▸ hwm)).1
  · exact (List.mem_filter.mp (hl ▸ hwm)).2
  · intro m hm he hmw
    exact hbest m (hl ▸ List.mem_filter.mpr ⟨hm, he⟩) hmw

/-- C1: at most one master ever — starting from any registry with unique
node ids and at most one master, every sequence of register/remove
operations preserves `master_count ≤ 1` (registration joins as replica;
removing the master runs no-master recovery, which promotes at most one
node); and whenever a split-brain window leaves `master_count ≥ 1`
competing masters, resolution demotes all but the preferred one, so that
exactly one master remains. -/
theorem single_master_invariant (threshold : Nat) (ops : List RegOp)
    (s : List ClusterNode)
    (hnd : (s.map ClusterNode.node_id).Nodup)
    (hm : masterCount s ≤ 1) :
    masterCount (applyRegOps threshold ops s) ≤ 1 ∧
    ∀ t : List ClusterNode, (t.map ClusterNode.node_id).Nodup →
      1 ≤ masterCount t → masterCount (resolveSplitBrain t) = 1 :=
  ⟨(regInv_applyRegOps threshold ops s ⟨hnd, hm⟩).2,
    fun t hnd' hm' => resolveSplitBrain_masterCount t hnd' hm'⟩

/-- A concrete registry: one master and one replica. -/
def regEx : List ClusterNode :=
  [⟨"a1", "h1", 8000, .master, .healthy, ⟨10, true, true, 100⟩, ⟨0, 0⟩⟩,
   ⟨"b2", "h2", 8000, .replica, .healthy, ⟨10, true, true, 50⟩, ⟨1, 0⟩⟩]

/-- A concrete operation sequence: register a node, then remove the
current master (forcing no-master recovery). -/
def opsEx : List RegOp :=
  [.register ⟨"c3", "h3", 8000, .replica, .healthy, ⟨10, true, true, 70⟩, ⟨2, 0⟩⟩,
   .remove "a1"]

/-- A concrete split-brain registry: two competing masters. -/
def splitEx : List ClusterNode :=
  [⟨"a1", "h1", 8000, .master, .healthy, ⟨10, true, true, 100⟩, ⟨0, 0⟩⟩,
   ⟨"b2", "h2", 8000, .master, .healthy, ⟨10, true, true, 50⟩, ⟨1, 0⟩⟩]

/-- Witness for C1 on concrete registries and operations. -/
theorem single_master_invariant_witness :
    ((regEx.map ClusterNode.node_id).Nodup ∧ masterCount regEx ≤ 1) ∧
    masterCount (applyRegOps 10 opsEx regEx) ≤ 1 ∧
    ((splitEx.map ClusterNode.node_id).Nodup ∧ 1 ≤ masterCount splitEx) ∧
    masterCount (resolveSplitBrain splitEx) = 1 :=
  ⟨⟨by decide, by decide⟩,
    (single_master_invariant 10 opsEx regEx (by decide) (by decide)).1,
    ⟨by decide, by decide⟩,
    (single_master_invariant 10 opsEx regEx (by decide) (by decide)).2
      splitEx (by decide) (by decide)⟩

/-- C7: promotion and demotion have a health precondition — a promote or
demote of a node whose status is `unhealthy` or `offline` without the
`force` flag fails with `badStatus` and leaves the whole state (hence the
node's role) unchanged; a transition without `force` only ever succeeds
on a `healthy` or `degraded` node; and a forced transition succeeds and
appends a high-severity audit event. -/
theorem promote_demote_health_precondition (st : CoordState) (nid : String)
    (m : ClusterNode)
    (hfind : st.nodes.find? (fun x => x.node_id = nid) = some m)
    (hbad : m.status = NodeStatus.unhealthy ∨ m.status = NodeStatus.offline) :
    promoteNode st nid false = (st, some RoleError.badStatus) ∧
    demoteNode st nid false = (st, some RoleError.badStatus) ∧
    (∀ (st₂ : CoordState) (nid₂ : String),
      (promoteNode st₂ nid₂ false).2 = none →
      ∃ m₂, st₂.nodes.find? (fun x => x.node_id = nid₂) = some m₂ ∧
        (m₂.status = NodeStatus.healthy ∨ m₂.status = NodeStatus.degraded)) ∧
    ((promoteNode st nid true).2 = none ∧
      (promoteNode st nid true).1.audit =
        st.audit ++ [⟨"promote", nid, true, AuditSeverity.high⟩]) ∧
    ((demoteNode st nid true).2 = none ∧
      (demoteNode st nid true).1.audit =
        st.audit ++ [⟨"demote", nid, true, AuditSeverity.high⟩]) := by
  refine ⟨?_, ?_, ?_, ?_, ?_⟩
  · unfold promoteNode
    rw [hfind]
    simp [hbad]
  · unfold demoteNode
    rw [hfind]
    simp [hbad]
  · intro st₂ nid₂ hok
    unfold promoteNode at hok
    cases hfind₂ : st₂.nodes.find? (fun x => x.node_id = nid₂) with
    | none => rw [hfind₂] at hok; cases hok
    | some m₂ =>
      rw [hfind₂] at hok
      refine ⟨m₂, rfl, ?_⟩
      by_cases hcond : (m₂.status = NodeStatus.unhealthy ∨
          m₂.status = NodeStatus.offline) ∧ (false : Bool) = false
      · simp at hok
        rw [if_pos hcond.1] at hok
        simp at hok
      · cases hs : m₂.status with
        | healthy => exact Or.inl rfl
        | degraded => exact Or.inr rfl
        | unhealthy => exact absurd ⟨Or.inl hs, rfl⟩ hcond
        | offline => exact absurd ⟨Or.inr hs, rfl⟩ hcond
  · unfold promoteNode
    rw [hfind]
    simp
  · unfold demoteNode
    rw [hfind]
    simp

/-- A concrete offline replica used as a failed promotion target. -/
def offlineNode : ClusterNode :=
  ⟨"b2", "h2", 8000, .replica, .offline, ⟨10, true, true, 50⟩, ⟨9, 4⟩⟩

/-- A coordinator state with an offline replica `b2`. -/
def coordEx : CoordState :=
  ⟨[⟨"a1", "h1", 8000, .master, .healthy, ⟨10, true, true, 100⟩, ⟨0, 0⟩⟩,
    offlineNode],
   []⟩

/-- Witness for C7 on a concrete state with an offline target node. -/
theorem promote_demote_health_precondition_witness :
    (coordEx.nodes.find? (fun x => x.node_id = "b2") = some offlineNode ∧
      (offlineNode.status = NodeStatus.unhealthy ∨
        offlineNode.status = NodeStatus.offline)) ∧
    promoteNode coordEx "b2" false = (coordEx, some RoleError.badStatus) ∧
    (promoteNode coordEx "b2" true).1.audit =
      coordEx.audit ++ [⟨"promote", "b2", true, AuditSeverity.high⟩] :=
  ⟨⟨by decide, by decide⟩,
    (promote_demote_health_precondition coordEx "b2" offlineNode
      (by decide) (by decide)).1,
    (promote_demote_health_precondition coordEx "b2" offlineNode
      (by decide) (by decide)).2.2.2.1.2⟩

/-- C5: migration import is atomic with respect to failure — with
rollback enabled, every import run either fully succeeds (all package
collections applied) or fails mid-import and automatically restores every
touched collection, so the caller observes either full success or the
exact pre-import database together with a `failed` status, never
partially imported data. -/
theorem import_rollback_atomic (pkg : List (String × List PkgDoc))
    (db : DB) :
    importRun true pkg db = (ImportStatus.success, importAllOk pkg db) ∨
    importRun true pkg db = (ImportStatus.failed, db) :=
  importCollections_spec pkg [] db db rfl

/-- C6: export followed by import of the unmodified package is a round
trip — importing the exported package into an empty instance succeeds and
reproduces the same document set per collection (by content); the
freshly-stamped package verifies; and checksum verification fails
deterministically on any package whose payload has been altered (the
digest covers the full serialized payload, idealized as injective). -/
theorem export_import_round_trip (names : List String) (db : DB)
    (hnames : names.Nodup)
    (hdocs : ∀ n ∈ names, ((db n).map Prod.fst).Nodup) :
    ((importRun true (exportDB names db) emptyDB).1 = ImportStatus.success ∧
      ∀ n ∈ names, ∀ kv,
        kv ∈ (importRun true (exportDB names db) emptyDB).2 n ↔
          kv ∈ db n) ∧
    verifyPackage (mkPackage (exportDB names db)) = true ∧
    ∀ (pkg : MigrationPackage) (altered : List (String × List PkgDoc)),
      verifyPackage pkg = true → altered ≠ pkg.collections →
      verifyPackage ⟨altered, pkg.checksum⟩ = false := by
  have hwf : ∀ c ∈ exportDB names db,
      c.2.all (fun d => d.wellFormed) = true := by
    intro c hc
    obtain ⟨n, _, rfl⟩ := List.mem_map.mp hc
    simp only [List.all_eq_true]
    intro d hd
    obtain ⟨kv, _, rfl⟩ := List.mem_map.mp hd
    rfl
  have hrun : importRun true (exportDB names db) emptyDB =
      (ImportStatus.success, (exportDB names db).foldl applyColl emptyDB) :=
    importCollections_success (exportDB names db) [] emptyDB hwf
  refine ⟨⟨by rw [hrun], ?_⟩, ?_, ?_⟩
  · intro n hn kv
    rw [hrun]
    show kv ∈ ((exportDB names db).foldl applyColl emptyDB) n ↔ _
    rw [exported_foldl_eval names db emptyDB hnames n hn]
    have hnd : (((db n).map (fun kv => (⟨kv.1, kv.2, true⟩ : PkgDoc))).map
        PkgDoc.doc_id).Nodup := by
      rw [List.map_map]
      exact hdocs n hn
    rw [mergeDocs_mem _ (emptyDB n) hnd (fun kv hkv => by cases hkv) kv]
    constructor
    · rintro (h | ⟨d, hd, rfl⟩)
      · cases h
      · obtain ⟨kv', hkv', rfl⟩ := List.mem_map.mp hd
        exact hkv'
    · intro h
      exact Or.inr ⟨⟨kv.1, kv.2, true⟩,
        List.mem_map_of_mem _ h, rfl⟩
  · simp [verifyPackage, mkPackage, digest]
  · intro pkg altered hver halt
    have hck : pkg.checksum = pkg.collections := by
      simpa [verifyPackage, digest] using hver
    simp only [verifyPackage, digest, hck]
    exact decide_eq_false (fun h => halt h.symm)

/-- A concrete database with one collection of two documents. -/
def dbEx : DB :=
  fun n => if n = "users" then [("u1", "alice"), ("u2", "bob")] else []

/-- Witness for C6 on a concrete one-collection database. -/
theorem export_import_round_trip_witness :
    ((["users"] : List String).Nodup ∧
      ∀ n ∈ (["users"] : List String), ((dbEx n).map Prod.fst).Nodup) ∧
    (((importRun true (exportDB ["users"] dbEx) emptyDB).1 =
        ImportStatus.success ∧
      ∀ n ∈ (["users"] : List String), ∀ kv,
        kv ∈ (importRun true (exportDB ["users"] dbEx) emptyDB).2 n ↔
          kv ∈ dbEx n) ∧
    verifyPackage (mkPackage (exportDB ["users"] dbEx)) = true ∧
    ∀ (pkg : MigrationPackage) (altered : List (String × List PkgDoc)),
      verifyPackage pkg = true → altered ≠ pkg.collections →
      verifyPackage ⟨altered, pkg.checksum⟩ = false) :=
  ⟨⟨by decide, by decide⟩,
    export_import_round_trip ["users"] dbEx (by decide) (by decide)⟩

/-- C8: the Cluster API boundary maps every internal error kind to
exactly one of the six status codes 401/403/404/409/500/503, with missing
token ↦ 401, invalid token or insufficient role ↦ 403, unknown
node/migration ↦ 404, import conflict under the `fail` policy ↦ 409,
internal ↦ 500 and unsatisfiable routing ↦ 503. -/
theorem api_error_code_mapping :
    (∀ e : ApiErrorKind, statusCode e ∈ ([401, 403, 404, 409, 500, 503] : List Nat)) ∧
    statusCode .authMissingToken = 401 ∧
    statusCode .authInvalidToken = 403 ∧
    statusCode .authInsufficientRole = 403 ∧
    statusCode .nodeNotFound = 404 ∧
    statusCode .migrationNotFound = 404 ∧
    statusCode .importConflictFailPolicy = 409 ∧
    statusCode .internal = 500 ∧
    statusCode .routingUnavailable = 503 := by
  refine ⟨fun e => ?_, rfl, rfl, rfl, rfl, rfl, rfl, rfl, rfl⟩
  cases e <;> simp [statusCode]

/-- A concrete three-node snapshot: one master and two eligible replicas
with distinct priorities. -/
def snapEx : List ClusterNode :=
  [⟨"m1", "host-a", 8000, .master, .healthy, ⟨1000, true, true, 100⟩, ⟨0, 0⟩⟩,
   ⟨"r1", "host-b", 8000, .replica, .healthy, ⟨1000, false, true, 50⟩, ⟨2, 1⟩⟩,
   ⟨"r2", "host-c", 8000, .replica, .degraded, ⟨1000, false, true, 80⟩, ⟨3, 2⟩⟩]

/-- Witness for C4 on the concrete snapshot `snapEx`. -/
theorem promotion_selection_correct_witness :
    ((snapEx.map ClusterNode.node_id).Nodup ∧
      snapEx.filter (eligibleB 10) ≠ []) ∧
    (∃ w, selectPromotion 10 snapEx = some w ∧
      w ∈ snapEx ∧ eligibleB 10 w = true ∧
      ∀ m ∈ snapEx, eligibleB 10 m = true → m ≠ w → promoBetter w m) :=
  ⟨⟨by decide, by decide⟩,
    promotion_selection_correct 10 snapEx (by decide) (by decide)⟩

/-- Witness for C3 at a concrete pair of arrival orders. -/
theorem replay_order_independence_witness :
    ([evA, evB].Perm [evB, evA] ∧
      ([evA, evB].map ReplicationEvent.sequence_number).Nodup) ∧
    (applyBatch ⟨[], []⟩ (sortBySeq [evA, evB]) =
        applyBatch ⟨[], []⟩ (sortBySeq [evB, evA]) ∧
      applyBatch ⟨[], []⟩ (sortBySeq ([evA, evB].map (retime (· + 7)))) =
        applyBatch ⟨[], []⟩ (sortBySeq [evA, evB])) :=
  ⟨⟨by decide, by decide⟩,
    replay_order_independence [evA, evB] [evB, evA] (· + 7) ⟨[], []⟩
      (by decide) (by decide)⟩

end SBD
